import Mathlib

/-!
Shallow embedding of the weighted log fan-out service (wla-distibutor):
the analyzer pool (`pkg/analyzer`), the weighted selector and the dispatch
engine (`pkg/distributor`), and the batch data model (`pkg/models`).

Conventions of the embedding:
* Go `float64` weights are modelled as exact rationals `ℚ`; the drawn
  random value `r = rand.Float64() * totalWeight` is passed in as an
  explicit parameter ranging over `[0, W)`.
* Go `int64` metrics counters only ever increment by one, so they are
  modelled as unbounded naturals.
* Go `int` retry counts are modelled as `ℤ`.
* Network I/O (`http.Client.Do`, request construction, JSON marshalling)
  is modelled by an explicit outcome datatype passed to the function that
  performs the call.
* Channels are bounded FIFO queues: a non-blocking send succeeds exactly
  when the buffer holds fewer elements than its capacity.
* `map[string]interface{}` metadata is an optional association list whose
  values are a sum type; `none` models a nil map, and the Go type
  assertion `.(int)` succeeds exactly on the `intVal` constructor.
-/

namespace WLA

/-! ## Data model (`pkg/models/logs.go`) -/

/-- Go `type LogLevel string`. -/
abbrev LogLevel := String

/-- A value stored in a `map[string]interface{}` metadata map. -/
inductive MetaVal where
  | intVal (n : ℤ) : MetaVal
  | strVal (s : String) : MetaVal
deriving DecidableEq

/-- Metadata map: `none` models a nil Go map. -/
abbrev Metadata := Option (List (String × MetaVal))

/-- Embeds `models.LogMessage` (timestamps as integers). -/
structure LogMessage where
  id : String
  timestamp : ℤ
  level : LogLevel
  source : String
  message : String
  metadata : Metadata
deriving DecidableEq

/-- Embeds `models.LogPacket`. -/
structure LogPacket where
  packetID : String
  agentID : String
  sentAt : ℤ
  receivedAt : ℤ
  logMessages : List LogMessage
  metadata : Metadata
deriving DecidableEq

/-- First-match lookup in an association list (Go map indexing). -/
def getMetaList : List (String × MetaVal) → String → Option MetaVal
  | [], _ => none
  | kv :: t, k => if kv.1 = k then some kv.2 else getMetaList t k

/-- Reading `packet.Metadata[k]`: indexing a nil map yields the nil interface. -/
def getMeta (pkt : LogPacket) (k : String) : Option MetaVal :=
  match pkt.metadata with
  | none => none
  | some m => getMetaList m k

/-- Map update `m[k] = v` (first-match lookup semantics). -/
def setMetaList (m : List (String × MetaVal)) (k : String) (v : MetaVal) :
    List (String × MetaVal) :=
  (k, v) :: m.filter (fun kv => kv.1 ≠ k)

/-! ## Analyzer pool (`pkg/analyzer`, src/unnamed/part_001) -/

/-- Embeds `analyzer.Analyzer`. -/
structure Analyzer where
  ID : String
  URL : String
  Weight : ℚ
  Active : Bool
deriving DecidableEq

/-- Embeds `analyzer.AnalyzerPool` (lock, HTTP client and probe period elided). -/
structure AnalyzerPool where
  analyzers : List Analyzer
  totalWeight : ℚ
deriving DecidableEq

/-- Embeds `NewAnalyzerPool`: empty slice, zero-valued cached weight. -/
def NewAnalyzerPool : AnalyzerPool :=
  { analyzers := [], totalWeight := 0 }

/-- Embeds `recalculateTotalWeight`: running total over active entries. -/
def recalculateTotalWeight (l : List Analyzer) : ℚ :=
  l.foldl (fun t a => if a.Active then t + a.Weight else t) 0

/-- Embeds `AddAnalyzer`: unconditionally appends a new entry with `Active = true`
and recalculates the cached total weight. -/
def AddAnalyzer (p : AnalyzerPool) (id url : String) (weight : ℚ) : AnalyzerPool :=
  let l := p.analyzers ++ [{ ID := id, URL := url, Weight := weight, Active := true }]
  { analyzers := l, totalWeight := recalculateTotalWeight l }

/-- The loop body of `RemoveAnalyzer`: delete the first entry with the id. -/
def removeFirstAnalyzer : List Analyzer → String → List Analyzer
  | [], _ => []
  | a :: t, id => if a.ID = id then t else a :: removeFirstAnalyzer t id

/-- Embeds `RemoveAnalyzer`: removes the first match and recalculates; when no
entry matches, the loop falls through and the pool is untouched. -/
def RemoveAnalyzer (p : AnalyzerPool) (id : String) : AnalyzerPool :=
  if p.analyzers.any (fun a => a.ID = id) then
    let l := removeFirstAnalyzer p.analyzers id
    { analyzers := l, totalWeight := recalculateTotalWeight l }
  else p

/-- Embeds `GetActiveAnalyzers`: snapshot of the active entries. -/
def GetActiveAnalyzers (p : AnalyzerPool) : List Analyzer :=
  p.analyzers.filter (fun a => a.Active)

/-- The loop body of `SetAnalyzerActive`: flip the flag on the first match
(the Go loop breaks after the first hit). -/
def setFirstActive : List Analyzer → String → Bool → List Analyzer
  | [], _, _ => []
  | a :: t, id, act =>
      if a.ID = id then { a with Active := act } :: t
      else a :: setFirstActive t id act

/-- Embeds `SetAnalyzerActive`: updates the first match, then unconditionally
recalculates the cached total weight. -/
def SetAnalyzerActive (p : AnalyzerPool) (id : String) (act : Bool) : AnalyzerPool :=
  let l := setFirstActive p.analyzers id act
  { analyzers := l, totalWeight := recalculateTotalWeight l }

/-- Outcome of the `POST {url}/analyze` exchange in `SendLogPacket`. -/
inductive SendOutcome where
  | marshalError : SendOutcome
  | requestError : SendOutcome
  | transportError : SendOutcome
  | response (status : ℕ) : SendOutcome
deriving DecidableEq

/-- Embeds `SendLogPacket`: returns the updated pool and whether the returned
error was nil. Marshal and request-construction failures return early;
a transport error marks the target analyzer inactive before returning;
a response succeeds exactly when its status is 200. -/
def SendLogPacket (p : AnalyzerPool) (a : Analyzer) (out : SendOutcome) :
    AnalyzerPool × Bool :=
  match out with
  | .marshalError => (p, false)
  | .requestError => (p, false)
  | .transportError => (SetAnalyzerActive p a.ID false, false)
  | .response status => (p, status = 200)

/-- Outcome of the `GET {url}/health` probe in `checkAnalyzerHealth`. -/
inductive ProbeOutcome where
  | requestError : ProbeOutcome
  | transportError : ProbeOutcome
  | response (status : ℕ) : ProbeOutcome
deriving DecidableEq

/-- Whether a probe outcome marks the analyzer live (status 200 only). -/
def probeOk : ProbeOutcome → Bool
  | .response status => status = 200
  | _ => false

/-- Embeds `checkAnalyzerHealth`: every outcome ends in a `SetAnalyzerActive`
call; only a 200 response sets the flag to true. -/
def checkAnalyzerHealth (p : AnalyzerPool) (a : Analyzer) (out : ProbeOutcome) :
    AnalyzerPool :=
  match out with
  | .requestError => SetAnalyzerActive p a.ID false
  | .transportError => SetAnalyzerActive p a.ID false
  | .response status =>
      if status = 200 then SetAnalyzerActive p a.ID true
      else SetAnalyzerActive p a.ID false

/-- Embeds `checkAllAnalyzers`: copies the full analyzer slice (live or not) and
probes every entry; `out` gives each probe's outcome. The probes run
concurrently in Go but each ends in a serialized `SetAnalyzerActive`, so
a round is a fold of those updates over the snapshot. -/
def checkAllAnalyzers (p : AnalyzerPool) (out : Analyzer → ProbeOutcome) :
    AnalyzerPool :=
  p.analyzers.foldl (fun q a => checkAnalyzerHealth q a (out a)) p

/-! ## Weighted selector (`selectAnalyzerRandom`) -/

/-- The `for` loop of `selectAnalyzerRandom`: accumulate
`currentWeight += a.Weight` and return the first entry with
`r <= currentWeight`; `none` when the loop falls through. -/
def selectLoop (r : ℚ) : ℚ → List Analyzer → Option Analyzer
  | _, [] => none
  | c, a :: t => if r ≤ c + a.Weight then some a else selectLoop r (c + a.Weight) t

/-- The selector's running total `totalWeight += a.Weight`. -/
def listTotalWeight (l : List Analyzer) : ℚ :=
  l.foldl (fun t a => t + a.Weight) 0

/-- Embeds `selectAnalyzerRandom` with the drawn value `r` made explicit: a
single-element slice is returned without consulting `r`; otherwise the
loop runs and the first element is the fallback. `none` only on the empty
slice (where the Go code would panic on `analyzers[0]`). -/
def selectAnalyzerRandom (l : List Analyzer) (r : ℚ) : Option Analyzer :=
  if l.length = 1 then l.head?
  else
    match selectLoop r 0 l with
    | some a => some a
    | none => l.head?

/-! ## Dispatch engine (`pkg/distributor/distributor.go`) -/

/-- Embeds `distributor.DistributionMetrics` (lock elided). -/
structure DistributionMetrics where
  totalPacketsReceived : ℕ
  totalPacketsSent : ℕ
  packetsDropped : ℕ
  packetsByAnalyzer : String → ℕ

/-- The dispatch engine state: the two bounded channels (both created
with capacity `queueSize`), the retry bound and the metrics. The ghost
field `enqueueFailures` counts the `EnqueuePacket` calls that returned
false; the Go code keeps no such counter, it is bookkeeping used to state
invariants. -/
structure DistState where
  workQueue : List LogPacket
  retryQueue : List LogPacket
  queueSize : ℕ
  maxRetries : ℤ
  metrics : DistributionMetrics
  enqueueFailures : ℕ

/-- Embeds `NewLogDistributor`: empty queues, zeroed metrics. -/
def NewLogDistributor (queueSize : ℕ) (maxRetries : ℤ) : DistState :=
  { workQueue := []
    retryQueue := []
    queueSize := queueSize
    maxRetries := maxRetries
    metrics :=
      { totalPacketsReceived := 0
        totalPacketsSent := 0
        packetsDropped := 0
        packetsByAnalyzer := fun _ => 0 }
    enqueueFailures := 0 }

/-- Embeds `EnqueuePacket`: non-blocking send on the work queue. Room: admit and
count `TotalPacketsReceived`, return true. Full: count `PacketsDropped`,
return false (and tick the ghost failure counter). -/
def EnqueuePacket (d : DistState) (pkt : LogPacket) : DistState × Bool :=
  if d.workQueue.length < d.queueSize then
    ({ d with
        workQueue := d.workQueue ++ [pkt]
        metrics := { d.metrics with
          totalPacketsReceived := d.metrics.totalPacketsReceived + 1 } }, true)
  else
    ({ d with
        metrics := { d.metrics with
          packetsDropped := d.metrics.packetsDropped + 1 }
        enqueueFailures := d.enqueueFailures + 1 }, false)

/-- The stamping step of the failure path: ensure the metadata map exists
and set `Metadata["retryCount"] = retryCount + 1`. -/
def stampRetry (pkt : LogPacket) (rc : ℤ) : LogPacket :=
  let m := match pkt.metadata with
    | none => []
    | some m => m
  { pkt with metadata := some (setMetaList m "retryCount" (MetaVal.intVal (rc + 1))) }

/-- The failure path of `processPacket`, identical in both the
empty-snapshot and the send-error branch: under the retry limit, stamp
the packet and offer it to the retry queue without blocking (dropping on
a full queue); at or over the limit, drop. -/
def retryOrDrop (d : DistState) (pkt : LogPacket) (rc : ℤ) : DistState :=
  if rc < d.maxRetries then
    let pkt' := stampRetry pkt rc
    if d.retryQueue.length < d.queueSize then
      { d with retryQueue := d.retryQueue ++ [pkt'] }
    else
      { d with metrics := { d.metrics with
          packetsDropped := d.metrics.packetsDropped + 1 } }
  else
    { d with metrics := { d.metrics with
        packetsDropped := d.metrics.packetsDropped + 1 } }

/-- Embeds `processPacket`: `snapshot` is what `GetActiveAnalyzers` returned,
`r` the selector's drawn value, and `sendOk` whether `SendLogPacket`
returned a nil error. On success, `TotalPacketsSent` and the chosen
analyzer's per-analyzer bucket are incremented. -/
def processPacket (d : DistState) (pkt : LogPacket) (rc : ℤ)
    (snapshot : List Analyzer) (r : ℚ) (sendOk : Bool) : DistState :=
  if snapshot.isEmpty then retryOrDrop d pkt rc
  else
    match selectAnalyzerRandom snapshot r with
    | none => retryOrDrop d pkt rc
    | some sel =>
      if sendOk then
        { d with metrics := { d.metrics with
            totalPacketsSent := d.metrics.totalPacketsSent + 1
            packetsByAnalyzer := fun k =>
              if k = sel.ID then d.metrics.packetsByAnalyzer k + 1
              else d.metrics.packetsByAnalyzer k } }
      else retryOrDrop d pkt rc

/-- The type assertion `packet.Metadata["retryCount"].(int)` performed by
`retryWorker`: `none` models a panic (nil metadata, missing key, or a
value that is not an `int`). -/
def retryCountOf (pkt : LogPacket) : Option ℤ :=
  match getMeta pkt "retryCount" with
  | some (MetaVal.intVal n) => some n
  | _ => none

/-- One atomic step of the engine: an `EnqueuePacket` call, a worker
picking a packet off the work queue and processing it with retry count 0,
or the retry worker picking a packet off the retry queue and processing
it with the retry count read by the type assertion. The snapshot, the
drawn value and the send outcome are free in each processing step. -/
inductive DStep : DistState → DistState → Prop where
  | enqueue (d : DistState) (pkt : LogPacket) :
      DStep d (EnqueuePacket d pkt).1
  | work (d : DistState) (pkt : LogPacket) (rest : List LogPacket)
      (snapshot : List Analyzer) (r : ℚ) (sendOk : Bool) :
      d.workQueue = pkt :: rest →
      DStep d (processPacket { d with workQueue := rest } pkt 0 snapshot r sendOk)
  | retry (d : DistState) (pkt : LogPacket) (rest : List LogPacket) (n : ℤ)
      (snapshot : List Analyzer) (r : ℚ) (sendOk : Bool) :
      d.retryQueue = pkt :: rest →
      retryCountOf pkt = some n →
      DStep d (processPacket { d with retryQueue := rest } pkt n snapshot r sendOk)

/-- States reachable from a freshly constructed engine. -/
def DReachable (queueSize : ℕ) (maxRetries : ℤ) (d : DistState) : Prop :=
  Relation.ReflTransGen DStep (NewLogDistributor queueSize maxRetries) d

/-- The conserved flow quantity of the engine: every admitted packet is
either already terminal (sent or dropped) or still sitting in one of the
two queues. -/
def flow (d : DistState) : ℕ :=
  d.metrics.totalPacketsSent + d.metrics.packetsDropped
    + d.workQueue.length + d.retryQueue.length

/-! ## Specification-side definitions (for refinement claims) -/

/-- The selection rule as the specification words it: walk the snapshot
accumulating `c += weight` and return the first entry for which `r < c`
(strictly; the source loop tests `r <= c`). -/
def specSelectLt (r : ℚ) : ℚ → List Analyzer → Option Analyzer
  | _, [] => none
  | c, a :: t => if r < c + a.Weight then some a else specSelectLt r (c + a.Weight) t

/-- Cumulative weight of the first `i` entries of a snapshot. -/
def cumWeight (l : List Analyzer) (i : ℕ) : ℚ :=
  ((l.take i).map (fun a => a.Weight)).sum

/-! ## Pool operation sequences -/

/-- A state-mutating pool operation. -/
inductive PoolOp where
  | add (id url : String) (weight : ℚ) : PoolOp
  | remove (id : String) : PoolOp
  | setActive (id : String) (act : Bool) : PoolOp
deriving DecidableEq

/-- Apply one pool operation. -/
def applyPoolOp (p : AnalyzerPool) : PoolOp → AnalyzerPool
  | .add id url w => AddAnalyzer p id url w
  | .remove id => RemoveAnalyzer p id
  | .setActive id act => SetAnalyzerActive p id act

/-- Apply a sequence of pool operations in order. -/
def applyPoolOps (p : AnalyzerPool) : List PoolOp → AnalyzerPool
  | [] => p
  | op :: t => applyPoolOps (applyPoolOp p op) t

/-- The identifiers currently in the pool, in slice order. -/
def poolIDs (p : AnalyzerPool) : List String :=
  p.analyzers.map (fun a => a.ID)

/-- Every `add` in the sequence uses an id not present at the moment it
runs. -/
def opsAddFresh : AnalyzerPool → List PoolOp → Bool
  | _, [] => true
  | p, .add id url w :: t =>
      !(poolIDs p).contains id && opsAddFresh (AddAnalyzer p id url w) t
  | p, op :: t => opsAddFresh (applyPoolOp p op) t

/-- Sum of the weights of the active entries (the quantity the cached
`totalWeight` is supposed to track). -/
def activeWeightSum (l : List Analyzer) : ℚ :=
  ((l.filter (fun a => a.Active)).map (fun a => a.Weight)).sum

/-! ## Example inputs used by witnesses and counterexamples -/

/-- A concrete log packet. -/
def pkt0 : LogPacket :=
  { packetID := "p0", agentID := "agent0", sentAt := 0, receivedAt := 1,
    logMessages := [], metadata := none }

/-- A concrete analyzer of weight 1. -/
def anA : Analyzer := { ID := "A", URL := "http://a", Weight := 1, Active := true }

/-- A second concrete analyzer of weight 1. -/
def anB : Analyzer := { ID := "B", URL := "http://b", Weight := 1, Active := true }

/-- A concrete analyzer of weight 0. -/
def anZ : Analyzer := { ID := "Z", URL := "http://z", Weight := 0, Active := true }

/-- A concrete two-analyzer pool used by witnesses. -/
def pool2 : AnalyzerPool := { analyzers := [anA, anB], totalWeight := 2 }

/-- A concrete probe round: analyzer `A` answers 200, everyone else
suffers a transport error. -/
def probeRound0 (a : Analyzer) : ProbeOutcome :=
  if a.ID = "A" then ProbeOutcome.response 200 else ProbeOutcome.transportError

/-! ## Helper lemmas -/

theorem retryCountOf_stampRetry (pkt : LogPacket) (rc : ℤ) :
    retryCountOf (stampRetry pkt rc) = some (rc + 1) := by
  cases h : pkt.metadata <;>
    simp [stampRetry, retryCountOf, getMeta, setMetaList, getMetaList, h]

theorem stampRetry_metadata_ne_none (pkt : LogPacket) (rc : ℤ) :
    (stampRetry pkt rc).metadata ≠ none := by
  cases h : pkt.metadata <;> simp [stampRetry, h]

/-- On failure (empty snapshot or send error) `processPacket` runs the
retry-or-drop path. -/
theorem processPacket_failure (d : DistState) (pkt : LogPacket) (rc : ℤ)
    (snapshot : List Analyzer) (r : ℚ) (sendOk : Bool)
    (h : snapshot = [] ∨ sendOk = false) :
    processPacket d pkt rc snapshot r sendOk = retryOrDrop d pkt rc := by
  rcases h with h | h
  · simp [processPacket, h]
  · subst h
    unfold processPacket
    split
    · rfl
    · cases hsel : selectAnalyzerRandom snapshot r <;> simp [hsel]

/-! ## C8: the EnqueuePacket contract -/

/-- C8: when the ingress queue has room, `EnqueuePacket` appends the
packet, increments only `TotalPacketsReceived` and returns true; when it
is full, the packet is not admitted, only `PacketsDropped` is
incremented, and false is returned. -/
theorem C8_enqueue_contract (d : DistState) (pkt : LogPacket) :
    (d.workQueue.length < d.queueSize →
      (EnqueuePacket d pkt).2 = true ∧
      (EnqueuePacket d pkt).1.workQueue = d.workQueue ++ [pkt] ∧
      (EnqueuePacket d pkt).1.retryQueue = d.retryQueue ∧
      (EnqueuePacket d pkt).1.metrics.totalPacketsReceived
        = d.metrics.totalPacketsReceived + 1 ∧
      (EnqueuePacket d pkt).1.metrics.totalPacketsSent
        = d.metrics.totalPacketsSent ∧
      (EnqueuePacket d pkt).1.metrics.packetsDropped
        = d.metrics.packetsDropped ∧
      (EnqueuePacket d pkt).1.metrics.packetsByAnalyzer
        = d.metrics.packetsByAnalyzer) ∧
    (¬ d.workQueue.length < d.queueSize →
      (EnqueuePacket d pkt).2 = false ∧
      (EnqueuePacket d pkt).1.workQueue = d.workQueue ∧
      (EnqueuePacket d pkt).1.retryQueue = d.retryQueue ∧
      (EnqueuePacket d pkt).1.metrics.totalPacketsReceived
        = d.metrics.totalPacketsReceived ∧
      (EnqueuePacket d pkt).1.metrics.totalPacketsSent
        = d.metrics.totalPacketsSent ∧
      (EnqueuePacket d pkt).1.metrics.packetsDropped
        = d.metrics.packetsDropped + 1 ∧
      (EnqueuePacket d pkt).1.metrics.packetsByAnalyzer
        = d.metrics.packetsByAnalyzer) := by
  constructor <;> intro h <;> simp [EnqueuePacket, h]

/-- Witness for C8 at concrete engines: a fresh engine of capacity 1
admits a packet; a fresh engine of capacity 0 rejects it. -/
theorem C8_enqueue_contract_witness :
    (EnqueuePacket (NewLogDistributor 1 3) pkt0).2 = true ∧
    (EnqueuePacket (NewLogDistributor 0 3) pkt0).2 = false :=
  ⟨((C8_enqueue_contract (NewLogDistributor 1 3) pkt0).1 (by decide)).1,
   ((C8_enqueue_contract (NewLogDistributor 0 3) pkt0).2 (by decide)).1⟩

/-! ## C7: the failure path of processPacket -/

/-- C7: when `processPacket` reaches a failure (empty live snapshot or
send error) with `retryCount < maxRetries`, it stamps the packet's
metadata with retry count `retryCount + 1` and offers it to the retry
queue without blocking, incrementing `PacketsDropped` exactly when the
retry queue is full; with `retryCount ≥ maxRetries` it increments
`PacketsDropped` and enqueues nothing. -/
theorem C7_retry_or_drop (d : DistState) (pkt : LogPacket) (rc : ℤ)
    (snapshot : List Analyzer) (r : ℚ) (sendOk : Bool)
    (hfail : snapshot = [] ∨ sendOk = false) :
    (rc < d.maxRetries →
      retryCountOf (stampRetry pkt rc) = some (rc + 1) ∧
      (d.retryQueue.length < d.queueSize →
        (processPacket d pkt rc snapshot r sendOk).retryQueue
          = d.retryQueue ++ [stampRetry pkt rc] ∧
        (processPacket d pkt rc snapshot r sendOk).metrics.packetsDropped
          = d.metrics.packetsDropped) ∧
      (¬ d.retryQueue.length < d.queueSize →
        (processPacket d pkt rc snapshot r sendOk).retryQueue = d.retryQueue ∧
        (processPacket d pkt rc snapshot r sendOk).metrics.packetsDropped
          = d.metrics.packetsDropped + 1)) ∧
    (d.maxRetries ≤ rc →
      (processPacket d pkt rc snapshot r sendOk).retryQueue = d.retryQueue ∧
      (processPacket d pkt rc snapshot r sendOk).metrics.packetsDropped
        = d.metrics.packetsDropped + 1) := by
  rw [processPacket_failure d pkt rc snapshot r sendOk hfail]
  refine ⟨fun hlt => ⟨retryCountOf_stampRetry pkt rc, ?_, ?_⟩, fun hge => ?_⟩
  · intro hroom
    simp [retryOrDrop, hlt, hroom]
  · intro hfull
    simp [retryOrDrop, hlt, hfull]
  · have hnlt : ¬ rc < d.maxRetries := not_lt.mpr hge
    simp [retryOrDrop, hnlt]

/-- Witness for C7 on a fresh capacity-1 engine with an empty snapshot:
under the retry limit the packet is stamped and lands on the retry
queue; the same engine with `maxRetries = 0` drops it. -/
theorem C7_retry_or_drop_witness :
    (processPacket (NewLogDistributor 1 3) pkt0 0 [] 0 false).retryQueue
      = [stampRetry pkt0 0] ∧
    (processPacket (NewLogDistributor 1 0) pkt0 0 [] 0 false).metrics.packetsDropped
      = 1 :=
  ⟨(((C7_retry_or_drop (NewLogDistributor 1 3) pkt0 0 [] 0 false (Or.inl rfl)).1
      (by decide)).2.1 (by decide)).1,
   ((C7_retry_or_drop (NewLogDistributor 1 0) pkt0 0 [] 0 false (Or.inl rfl)).2
      (by decide)).2⟩

/-- Lemma: `setFirstActive` walks past a prefix that contains no match. -/
theorem setFirstActive_append_of_not_mem (l1 l2 : List Analyzer) (id : String)
    (act : Bool) (h : ∀ x ∈ l1, x.ID ≠ id) :
    setFirstActive (l1 ++ l2) id act = l1 ++ setFirstActive l2 id act := by
  induction l1 with
  | nil => simp
  | cons x t ih =>
    simp only [List.cons_append, setFirstActive]
    rw [if_neg (h x (List.mem_cons_self x t))]
    simp only [List.cons.injEq, true_and]
    exact ih (fun y hy => h y (List.mem_cons_of_mem x hy))

/-! ## C4: the SendLogPacket (Forward) contract -/

/-- C4: `SendLogPacket` succeeds exactly when the exchange produced a 200
response; a non-200 response leaves the pool (hence every liveness flag)
untouched; a transport error marks the first entry carrying the target's
id not-live before returning, leaving all other entries unchanged. -/
theorem C4_send_contract (p : AnalyzerPool) (a : Analyzer) (out : SendOutcome)
    (l1 l2 : List Analyzer) (e : Analyzer) :
    ((SendLogPacket p a out).2 = true ↔ out = SendOutcome.response 200) ∧
    (∀ status : ℕ, status ≠ 200 →
      (SendLogPacket p a (SendOutcome.response status)).1 = p) ∧
    (p.analyzers = l1 ++ e :: l2 → (∀ x ∈ l1, x.ID ≠ a.ID) → e.ID = a.ID →
      (SendLogPacket p a SendOutcome.transportError).1.analyzers
        = l1 ++ { e with Active := false } :: l2) := by
  refine ⟨?_, ?_, ?_⟩
  · cases out <;> simp [SendLogPacket]
  · intro status hne
    simp [SendLogPacket, hne]
  · intro hdec hl1 he
    show (SetAnalyzerActive p a.ID false).analyzers = _
    simp only [SetAnalyzerActive, hdec]
    rw [setFirstActive_append_of_not_mem l1 (e :: l2) a.ID false hl1]
    simp [setFirstActive, he]

/-- Witness for C4 on a concrete two-analyzer pool: a 200 response
succeeds, a 500 response fails without touching the pool, and a
transport error to analyzer B marks exactly B not-live. -/
theorem C4_send_contract_witness :
    (SendLogPacket pool2 anB (SendOutcome.response 200)).2 = true ∧
    (SendLogPacket pool2 anB (SendOutcome.response 500)).1 = pool2 ∧
    (SendLogPacket pool2 anB SendOutcome.transportError).1.analyzers
      = [anA, { anB with Active := false }] :=
  ⟨(C4_send_contract pool2 anB (SendOutcome.response 200) [] [] anA).1.mpr rfl,
   (C4_send_contract pool2 anB (SendOutcome.response 500) [] [] anA).2.1 500
      (by decide),
   (C4_send_contract pool2 anB SendOutcome.transportError [anA] [] anB).2.2
      (by decide) (by decide) rfl⟩

/-! ## Selector lemmas -/

theorem foldl_add_weight (l : List Analyzer) (c : ℚ) :
    l.foldl (fun t a => t + a.Weight) c = c + (l.map (fun a => a.Weight)).sum := by
  induction l generalizing c with
  | nil => simp
  | cons a t ih => simp [ih, add_assoc]

theorem listTotalWeight_eq_sum (l : List Analyzer) :
    listTotalWeight l = (l.map (fun a => a.Weight)).sum := by
  simpa using foldl_add_weight l 0

/-- The selector loop, started at accumulator `c`, returns the first
entry whose cumulative weight reaches `r`, provided the total does. -/
theorem selectLoop_spec (l : List Analyzer) (r : ℚ) (hne : l ≠ []) :
    ∀ c : ℚ, r ≤ c + (l.map (fun a => a.Weight)).sum →
    ∃ i, ∃ hi : i < l.length,
      selectLoop r c l = some (l.get ⟨i, hi⟩) ∧
      r ≤ c + ((l.take (i+1)).map (fun a => a.Weight)).sum ∧
      ∀ j < i, c + ((l.take (j+1)).map (fun a => a.Weight)).sum < r := by
  induction l with
  | nil => exact absurd rfl hne
  | cons a t ih =>
    intro c h
    by_cases hle : r ≤ c + a.Weight
    · refine ⟨0, by simp, ?_, ?_, ?_⟩
      · simp [selectLoop, hle]
      · simpa using hle
      · intro j hj
        exact absurd hj (Nat.not_lt_zero j)
    · have ht : t ≠ [] := by
        rintro rfl
        simp at h
        exact hle h
      have h' : r ≤ (c + a.Weight) + (t.map (fun a => a.Weight)).sum := by
        simp at h
        linarith
      obtain ⟨i, hi, hsel, hub, hlb⟩ := ih ht (c + a.Weight) h'
      refine ⟨i + 1, by simpa using Nat.succ_lt_succ hi, ?_, ?_, ?_⟩
      · simpa [selectLoop, hle] using hsel
      · simp only [List.take_succ_cons, List.map_cons, List.sum_cons]
        linarith
      · intro j hj
        cases j with
        | zero =>
          simpa using lt_of_not_ge hle
        | succ j' =>
          have hj' := hlb j' (Nat.lt_of_succ_lt_succ hj)
          simp only [List.take_succ_cons, List.map_cons, List.sum_cons]
          linarith

theorem cumWeight_succ (l : List Analyzer) (i : ℕ) (hi : i < l.length) :
    cumWeight l (i + 1) = cumWeight l i + (l.get ⟨i, hi⟩).Weight := by
  rw [cumWeight, cumWeight, List.take_succ, List.map_append, List.sum_append,
    List.getElem?_eq_getElem hi]
  simp [List.get_eq_getElem]

/-! ## C2: the weighted selection rule -/

/-- C2 corrected at an explicit input: with two weight-1 analyzers and
drawn value `r = 1 ∈ [0, W)`, the source selector (which tests
`r <= c`) returns the first analyzer, while the rule claimed by the
specification (first entry with `r < c`) yields the second. -/
theorem C2_selection_rule_counterexample :
    (0 : ℚ) ≤ 1 ∧ (1 : ℚ) < listTotalWeight [anA, anB] ∧
    specSelectLt 1 0 [anA, anB] = some anB ∧
    selectAnalyzerRandom [anA, anB] 1 = some anA ∧
    anA ≠ anB := by
  refine ⟨by norm_num, ?_, ?_, ?_, by decide⟩
  · norm_num [listTotalWeight, anA, anB]
  · norm_num [specSelectLt, anA, anB]
  · norm_num [selectAnalyzerRandom, selectLoop, anA, anB]

/-- C2 (amended: the loop's test is `r ≤ c`, not `r < c`): a singleton
snapshot is returned without consulting the drawn value; for a snapshot
of two or more entries and any drawn value in `[0, W)` the selector
returns the first entry in slice order whose cumulative weight `c`
satisfies `r ≤ c`; and when `W = 0` (all live weights zero) the drawn
value is `0` and the first entry is returned. -/
theorem C2_selection_rule (l : List Analyzer) (r : ℚ) :
    (∀ a : Analyzer, selectAnalyzerRandom [a] r = some a) ∧
    (2 ≤ l.length → 0 ≤ r → r < listTotalWeight l →
      ∃ i, ∃ hi : i < l.length,
        selectAnalyzerRandom l r = some (l.get ⟨i, hi⟩) ∧
        r ≤ cumWeight l (i + 1) ∧
        ∀ j < i, cumWeight l (j + 1) < r) ∧
    ((∀ a ∈ l, 0 ≤ a.Weight) → l ≠ [] → listTotalWeight l = 0 →
      selectAnalyzerRandom l 0 = l.head?) := by
  refine ⟨?_, ?_, ?_⟩
  · intro a
    simp [selectAnalyzerRandom]
  · intro h2 hr0 hrW
    have hne : l ≠ [] := by
      rintro rfl
      simp at h2
    have hlen : ¬ l.length = 1 := by omega
    have hle : r ≤ 0 + (l.map (fun a => a.Weight)).sum := by
      rw [← listTotalWeight_eq_sum]
      linarith
    obtain ⟨i, hi, hsel, hub, hlb⟩ := selectLoop_spec l r hne 0 hle
    refine ⟨i, hi, ?_, ?_, ?_⟩
    · simp [selectAnalyzerRandom, hlen, hsel]
    · simpa [cumWeight] using hub
    · intro j hj
      simpa [cumWeight] using hlb j hj
  · intro hw hne h0
    cases l with
    | nil => exact absurd rfl hne
    | cons a t =>
      cases t with
      | nil => simp [selectAnalyzerRandom]
      | cons b t' =>
        have hw0 : (0 : ℚ) ≤ a.Weight := hw a (List.mem_cons_self a (b :: t'))
        simp [selectAnalyzerRandom, selectLoop, hw0]

/-- Witness for C2: the rule picks the second analyzer at `r = 3/2`, a
singleton is returned as-is, and an all-zero-weight snapshot falls back
to its first entry. -/
theorem C2_selection_rule_witness :
    selectAnalyzerRandom [anA, anB] (3 / 2) = some anB ∧
    selectAnalyzerRandom [anA] (3 / 2) = some anA ∧
    selectAnalyzerRandom [anZ, anZ] 0 = some anZ := by
  refine ⟨?_, (C2_selection_rule [anA] (3 / 2)).1 anA, ?_⟩
  · obtain ⟨i, hi, hsel, hub, hlb⟩ :=
      (C2_selection_rule [anA, anB] (3 / 2)).2.1 (by decide) (by norm_num)
        (by norm_num [listTotalWeight, anA, anB])
    have hi2 : i < 2 := by simpa using hi
    interval_cases i
    · exfalso
      norm_num [cumWeight, anA] at hub
    · simpa using hsel
  · have h := (C2_selection_rule [anZ, anZ] 0).2.2
      (by intro a ha; fin_cases ha <;> norm_num [anZ]) (by decide)
      (by norm_num [listTotalWeight, anZ])
    simpa using h

/-! ## C3: zero-weight entries -/

/-- C3 corrected at an explicit input: with snapshot `[Z, B]`, `Z` of
weight 0 and `B` of weight 1, the drawn value `r = 0` lies in `[0, W)`
yet the selector returns the zero-weight entry `Z` (the loop's first
test is `0 ≤ 0`). -/
theorem C3_zero_weight_counterexample :
    (0 : ℚ) ≤ 0 ∧ (0 : ℚ) < listTotalWeight [anZ, anB] ∧
    0 < anB.Weight ∧ anZ.Weight = 0 ∧
    selectAnalyzerRandom [anZ, anB] 0 = some anZ := by
  refine ⟨le_refl 0, ?_, ?_, ?_, ?_⟩
  · norm_num [listTotalWeight, anZ, anB]
  · norm_num [anB]
  · norm_num [anZ]
  · norm_num [selectAnalyzerRandom, selectLoop, anZ, anB]

/-- C3 (amended: a zero-weight entry can be picked only at `r = 0`; for
every strictly positive drawn value `r < W` the selected entry has
strictly positive weight). -/
theorem C3_zero_weight (l : List Analyzer) (r : ℚ) (a : Analyzer)
    (h0 : 0 < r) (hW : r < listTotalWeight l)
    (hsel : selectAnalyzerRandom l r = some a) :
    0 < a.Weight := by
  have hne : l ≠ [] := by
    rintro rfl
    simp [listTotalWeight] at hW
    linarith
  by_cases hlen : l.length = 1
  · obtain ⟨x, rfl⟩ := List.length_eq_one.mp hlen
    simp [selectAnalyzerRandom] at hsel
    subst hsel
    simp [listTotalWeight] at hW
    linarith
  · have hle : r ≤ 0 + (l.map (fun a => a.Weight)).sum := by
      rw [← listTotalWeight_eq_sum]
      linarith
    obtain ⟨i, hi, hloop, hub, hlb⟩ := selectLoop_spec l r hne 0 hle
    rw [selectAnalyzerRandom, if_neg hlen, hloop] at hsel
    have ha : a = l.get ⟨i, hi⟩ := by
      simpa using hsel.symm
    have hub' : r ≤ cumWeight l (i + 1) := by
      simpa [cumWeight] using hub
    have hprev : cumWeight l i < r := by
      cases i with
      | zero => simpa [cumWeight] using h0
      | succ j =>
        have := hlb j (Nat.lt_succ_self j)
        simpa [cumWeight] using this
    have hstep := cumWeight_succ l i hi
    rw [ha]
    linarith

/-- Witness for C3: at `r = 1/2` on the snapshot `[B, Z]` the selector
returns `B`, whose weight is positive. -/
theorem C3_zero_weight_witness :
    selectAnalyzerRandom [anB, anZ] (1 / 2) = some anB ∧ 0 < anB.Weight :=
  ⟨by norm_num [selectAnalyzerRandom, selectLoop, anB, anZ],
   C3_zero_weight [anB, anZ] (1 / 2) anB (by norm_num)
     (by norm_num [listTotalWeight, anB, anZ])
     (by norm_num [selectAnalyzerRandom, selectLoop, anB, anZ])⟩

/-! ## Pool lemmas -/

theorem foldl_active_weight (l : List Analyzer) (c : ℚ) :
    l.foldl (fun t a => if a.Active then t + a.Weight else t) c
      = c + activeWeightSum l := by
  induction l generalizing c with
  | nil => simp [activeWeightSum]
  | cons a t ih =>
    cases ha : a.Active <;>
      simp [activeWeightSum, List.filter_cons, ha, ih, add_assoc]

theorem recalculateTotalWeight_eq (l : List Analyzer) :
    recalculateTotalWeight l = activeWeightSum l := by
  simpa using foldl_active_weight l 0

theorem removeFirstAnalyzer_sublist (l : List Analyzer) (id : String) :
    List.Sublist (removeFirstAnalyzer l id) l := by
  induction l with
  | nil => simp [removeFirstAnalyzer]
  | cons a t ih =>
    simp only [removeFirstAnalyzer]
    split
    · exact List.sublist_cons_self a t
    · exact List.Sublist.cons₂ a ih

theorem setFirstActive_map_id (l : List Analyzer) (id : String) (act : Bool) :
    (setFirstActive l id act).map (fun a => a.ID) = l.map (fun a => a.ID) := by
  induction l with
  | nil => rfl
  | cons a t ih =>
    simp only [setFirstActive]
    split <;> simp [ih]

theorem poolIDs_nodup_step (p : AnalyzerPool) (op : PoolOp)
    (h : (poolIDs p).Nodup)
    (hfresh : ∀ id url w, op = PoolOp.add id url w → id ∉ poolIDs p) :
    (poolIDs (applyPoolOp p op)).Nodup := by
  cases op with
  | add id url w =>
    have hid := hfresh id url w rfl
    simp only [applyPoolOp, AddAnalyzer, poolIDs] at *
    simp [List.nodup_append, h, hid]
  | remove id =>
    simp only [applyPoolOp, RemoveAnalyzer]
    split
    · exact h.sublist (List.Sublist.map _ (removeFirstAnalyzer_sublist p.analyzers id))
    · exact h
  | setActive id act =>
    simpa [applyPoolOp, poolIDs, SetAnalyzerActive, setFirstActive_map_id] using h

theorem poolIDs_nodup_ops (ops : List PoolOp) :
    ∀ p : AnalyzerPool, (poolIDs p).Nodup → opsAddFresh p ops = true →
    (poolIDs (applyPoolOps p ops)).Nodup := by
  induction ops with
  | nil =>
    intro p h _
    exact h
  | cons op t ih =>
    intro p h hf
    cases op with
    | add id url w =>
      simp only [opsAddFresh, Bool.and_eq_true, Bool.not_eq_true'] at hf
      have hid : id ∉ poolIDs p := by
        simpa using hf.1
      exact ih _ (poolIDs_nodup_step p (.add id url w) h
        (by rintro id' url' w' ⟨rfl⟩; exact hid)) hf.2
    | remove id =>
      simp only [opsAddFresh] at hf
      exact ih _ (poolIDs_nodup_step p (.remove id) h (by rintro _ _ _ ⟨⟩)) hf
    | setActive id act =>
      simp only [opsAddFresh] at hf
      exact ih _ (poolIDs_nodup_step p (.setActive id act) h (by rintro _ _ _ ⟨⟩)) hf

/-! ## C5: identifier uniqueness in the pool -/

/-- C5 corrected at an explicit input: `AddAnalyzer` appends
unconditionally, so registering the id `A` twice leaves two entries
sharing the identifier `A`. -/
theorem C5_unique_id_counterexample :
    ¬ (poolIDs (AddAnalyzer (AddAnalyzer NewAnalyzerPool "A" "http://a" 1)
        "A" "http://a2" 2)).Nodup := by decide

/-- C5 (amended: uniqueness holds only when every `AddAnalyzer` call in
the sequence uses an id absent at that moment; `RemoveAnalyzer` and
`SetAnalyzerActive` always preserve uniqueness, but a duplicate
`AddAnalyzer` breaks it). -/
theorem C5_unique_ids (ops : List PoolOp)
    (h : opsAddFresh NewAnalyzerPool ops = true) :
    (poolIDs (applyPoolOps NewAnalyzerPool ops)).Nodup :=
  poolIDs_nodup_ops ops NewAnalyzerPool (by simp [poolIDs, NewAnalyzerPool]) h

/-- Witness for C5 on a concrete fresh-id sequence. -/
theorem C5_unique_ids_witness :
    (poolIDs (applyPoolOps NewAnalyzerPool
      [PoolOp.add "A" "http://a" 1, PoolOp.add "B" "http://b" 2,
       PoolOp.setActive "A" false, PoolOp.remove "A"])).Nodup :=
  C5_unique_ids
    [PoolOp.add "A" "http://a" 1, PoolOp.add "B" "http://b" 2,
     PoolOp.setActive "A" false, PoolOp.remove "A"] (by decide)

/-! ## C6: the cached total weight -/

/-- C6: after every sequence of state-mutating pool operations on a
fresh pool, the cached `totalWeight` equals the sum of `Weight` over
exactly the entries whose `Active` flag is true. -/
theorem C6_total_weight_cache (ops : List PoolOp) :
    (applyPoolOps NewAnalyzerPool ops).totalWeight
      = activeWeightSum (applyPoolOps NewAnalyzerPool ops).analyzers := by
  have step : ∀ (p : AnalyzerPool) (op : PoolOp),
      p.totalWeight = activeWeightSum p.analyzers →
      (applyPoolOp p op).totalWeight
        = activeWeightSum (applyPoolOp p op).analyzers := by
    intro p op h
    cases op with
    | add id url w => simp [applyPoolOp, AddAnalyzer, recalculateTotalWeight_eq]
    | remove id =>
      simp only [applyPoolOp, RemoveAnalyzer]
      split
      · simp [recalculateTotalWeight_eq]
      · exact h
    | setActive id act =>
      simp [applyPoolOp, SetAnalyzerActive, recalculateTotalWeight_eq]
  have main : ∀ (ops' : List PoolOp) (p : AnalyzerPool),
      p.totalWeight = activeWeightSum p.analyzers →
      (applyPoolOps p ops').totalWeight
        = activeWeightSum (applyPoolOps p ops').analyzers := by
    intro ops'
    induction ops' with
    | nil => intro p h; exact h
    | cons op t ih => intro p h; exact ih _ (step p op h)
  exact main ops NewAnalyzerPool (by simp [NewAnalyzerPool, activeWeightSum])

/-! ## C9: the health probe round -/

theorem checkAnalyzerHealth_eq_setActive (p : AnalyzerPool) (a : Analyzer)
    (o : ProbeOutcome) :
    checkAnalyzerHealth p a o = SetAnalyzerActive p a.ID (probeOk o) := by
  cases o with
  | requestError => rfl
  | transportError => rfl
  | response status =>
    by_cases h : status = 200 <;> simp [checkAnalyzerHealth, probeOk, h]

theorem probeOk_eq_decide (o : ProbeOutcome) :
    probeOk o = decide (o = ProbeOutcome.response 200) := by
  cases o with
  | requestError => simp [probeOk]
  | transportError => simp [probeOk]
  | response s => by_cases h : s = 200 <;> simp [probeOk, h]

theorem checkAll_fold (out : Analyzer → ProbeOutcome) :
    ∀ (rest done : List Analyzer) (q : AnalyzerPool),
      q.analyzers = done ++ rest →
      ((done ++ rest).map (fun a => a.ID)).Nodup →
      (rest.foldl (fun q a => checkAnalyzerHealth q a (out a)) q).analyzers
        = done ++ rest.map (fun a => { a with Active := probeOk (out a) }) := by
  intro rest
  induction rest with
  | nil =>
    intro done q hq _
    simpa using hq
  | cons a t ih =>
    intro done q hq hnd
    have hnotmem : ∀ x ∈ done, x.ID ≠ a.ID := by
      intro x hx hxa
      have hsplit : ((done ++ a :: t).map (fun a => a.ID))
          = done.map (fun a => a.ID) ++ a.ID :: t.map (fun a => a.ID) := by
        simp
      rw [hsplit] at hnd
      have hdisj := (List.nodup_append.mp hnd).2.2
      exact hdisj (hxa ▸ List.mem_map_of_mem (fun a => a.ID) hx)
        (List.mem_cons_self _ _)
    have hstep : (checkAnalyzerHealth q a (out a)).analyzers
        = done ++ { a with Active := probeOk (out a) } :: t := by
      rw [checkAnalyzerHealth_eq_setActive]
      show (SetAnalyzerActive q a.ID (probeOk (out a))).analyzers = _
      simp only [SetAnalyzerActive, hq]
      rw [setFirstActive_append_of_not_mem done (a :: t) a.ID _ hnotmem]
      simp [setFirstActive]
    have hids : (((done ++ [{ a with Active := probeOk (out a) }]) ++ t).map
        (fun x : Analyzer => x.ID)).Nodup := by
      simpa using hnd
    have := ih (done ++ [{ a with Active := probeOk (out a) }])
      (checkAnalyzerHealth q a (out a)) (by rw [hstep]; simp) hids
    simpa using this

/-- C9: a health-probe round probes every registered analyzer (live or
not) and sets each one's liveness flag to true exactly when its
`GET /health` returned status 200 — any request-construction failure,
transport error or non-200 status turns the flag off; no other field of
any entry changes. -/
theorem C9_health_round (p : AnalyzerPool) (out : Analyzer → ProbeOutcome)
    (h : (poolIDs p).Nodup) :
    (checkAllAnalyzers p out).analyzers
      = p.analyzers.map (fun a =>
          { a with Active := decide (out a = ProbeOutcome.response 200) }) := by
  have hfold := checkAll_fold out p.analyzers [] p (by simp)
    (by simpa [poolIDs] using h)
  rw [checkAllAnalyzers, hfold]
  simp only [List.nil_append]
  exact List.map_congr_left (fun a _ => by rw [probeOk_eq_decide])

/-- Witness for C9 on the concrete two-analyzer pool: after the round in
which `A` answered 200 and `B` hit a transport error, `A` is live and
`B` is not. -/
theorem C9_health_round_witness :
    (checkAllAnalyzers pool2 probeRound0).analyzers
      = pool2.analyzers.map (fun a =>
          { a with Active := decide (probeRound0 a = ProbeOutcome.response 200) }) :=
  C9_health_round pool2 probeRound0 (by decide)

/-! ## Flow lemmas for the step relation -/

theorem retryOrDrop_flow (d : DistState) (pkt : LogPacket) (rc : ℤ) :
    flow (retryOrDrop d pkt rc) = flow d + 1 ∧
    (retryOrDrop d pkt rc).metrics.totalPacketsReceived
      = d.metrics.totalPacketsReceived ∧
    (retryOrDrop d pkt rc).enqueueFailures = d.enqueueFailures := by
  unfold retryOrDrop
  split
  · split
    · refine ⟨?_, rfl, rfl⟩
      simp [flow]
      omega
    · refine ⟨?_, rfl, rfl⟩
      simp [flow]
      omega
  · refine ⟨?_, rfl, rfl⟩
    simp [flow]
    omega

theorem processPacket_flow (d : DistState) (pkt : LogPacket) (rc : ℤ)
    (snapshot : List Analyzer) (r : ℚ) (sendOk : Bool) :
    flow (processPacket d pkt rc snapshot r sendOk) = flow d + 1 ∧
    (processPacket d pkt rc snapshot r sendOk).metrics.totalPacketsReceived
      = d.metrics.totalPacketsReceived ∧
    (processPacket d pkt rc snapshot r sendOk).enqueueFailures
      = d.enqueueFailures := by
  unfold processPacket
  split
  · exact retryOrDrop_flow d pkt rc
  · cases hsel : selectAnalyzerRandom snapshot r with
    | none => exact retryOrDrop_flow d pkt rc
    | some sel =>
      cases sendOk with
      | false =>
        simpa using retryOrDrop_flow d pkt rc
      | true =>
        refine ⟨?_, rfl, rfl⟩
        simp [flow]
        omega

theorem dstep_flow_invariant {d d' : DistState} (h : DStep d d')
    (hI : d.metrics.totalPacketsReceived + d.enqueueFailures = flow d) :
    d'.metrics.totalPacketsReceived + d'.enqueueFailures = flow d' := by
  cases h with
  | enqueue pkt =>
    unfold EnqueuePacket
    split
    · simp [flow] at hI ⊢
      omega
    · simp [flow] at hI ⊢
      omega
  | work pkt rest snapshot r sendOk hwq =>
    obtain ⟨hf, hr, he⟩ :=
      processPacket_flow { d with workQueue := rest } pkt 0 snapshot r sendOk
    rw [hf, hr, he]
    have hlen : d.workQueue.length = rest.length + 1 := by
      rw [hwq]
      rfl
    simp [flow] at hI ⊢
    omega
  | retry pkt rest n snapshot r sendOk hrq hn =>
    obtain ⟨hf, hr, he⟩ :=
      processPacket_flow { d with retryQueue := rest } pkt n snapshot r sendOk
    rw [hf, hr, he]
    have hlen : d.retryQueue.length = rest.length + 1 := by
      rw [hrq]
      rfl
    simp [flow] at hI ⊢
    omega

/-! ## C1: the metrics accounting invariant -/

/-- C1 corrected at an explicit reachable state: on a capacity-1 engine,
one accepted and two rejected `EnqueuePacket` calls leave
`TotalPacketsReceived = 1` but `PacketsDropped = 2` (a full-queue
rejection increments `PacketsDropped` without incrementing
`TotalPacketsReceived`), so `totalReceived ≥ totalSent + totalDropped`
fails. -/
theorem C1_accounting_counterexample :
    DReachable 1 3
      (EnqueuePacket (EnqueuePacket (EnqueuePacket
        (NewLogDistributor 1 3) pkt0).1 pkt0).1 pkt0).1 ∧
    ¬ ((EnqueuePacket (EnqueuePacket (EnqueuePacket
          (NewLogDistributor 1 3) pkt0).1 pkt0).1 pkt0).1.metrics.totalPacketsSent
        + (EnqueuePacket (EnqueuePacket (EnqueuePacket
            (NewLogDistributor 1 3) pkt0).1 pkt0).1 pkt0).1.metrics.packetsDropped
        ≤ (EnqueuePacket (EnqueuePacket (EnqueuePacket
            (NewLogDistributor 1 3) pkt0).1 pkt0).1 pkt0).1.metrics.totalPacketsReceived) := by
  constructor
  · exact Relation.ReflTransGen.tail (Relation.ReflTransGen.tail
      (Relation.ReflTransGen.tail Relation.ReflTransGen.refl
        (DStep.enqueue _ pkt0)) (DStep.enqueue _ pkt0)) (DStep.enqueue _ pkt0)
  · decide

/-- C1 (amended: the inequality holds once the `EnqueuePacket` calls
that returned false are added back on the received side — each such call
increments `PacketsDropped` but not `TotalPacketsReceived`). In every
reachable state, `TotalPacketsReceived` plus the number of failed
enqueues equals `TotalPacketsSent + PacketsDropped` plus the packets
still queued, and in particular bounds `TotalPacketsSent +
PacketsDropped` from above. -/
theorem C1_accounting (qs : ℕ) (mr : ℤ) (d : DistState)
    (h : DReachable qs mr d) :
    d.metrics.totalPacketsReceived + d.enqueueFailures
      = d.metrics.totalPacketsSent + d.metrics.packetsDropped
        + d.workQueue.length + d.retryQueue.length ∧
    d.metrics.totalPacketsSent + d.metrics.packetsDropped
      ≤ d.metrics.totalPacketsReceived + d.enqueueFailures := by
  have main : d.metrics.totalPacketsReceived + d.enqueueFailures = flow d := by
    induction h with
    | refl => rfl
    | tail hsteps hstep ih => exact dstep_flow_invariant hstep ih
  refine ⟨by simpa [flow] using main, ?_⟩
  simp [flow] at main
  omega

/-- Witness for C1 after one successful enqueue on a fresh engine. -/
theorem C1_accounting_witness :
    (EnqueuePacket (NewLogDistributor 2 3) pkt0).1.metrics.totalPacketsSent
      + (EnqueuePacket (NewLogDistributor 2 3) pkt0).1.metrics.packetsDropped
      ≤ (EnqueuePacket (NewLogDistributor 2 3) pkt0).1.metrics.totalPacketsReceived
        + (EnqueuePacket (NewLogDistributor 2 3) pkt0).1.enqueueFailures :=
  (C1_accounting 2 3 _ (Relation.ReflTransGen.tail Relation.ReflTransGen.refl
    (DStep.enqueue _ pkt0))).2

/-! ## C10: the retry queue is always stamped -/

theorem retryOrDrop_retryQueue (d : DistState) (pkt : LogPacket) (rc : ℤ) :
    (retryOrDrop d pkt rc).retryQueue = d.retryQueue ∨
    (retryOrDrop d pkt rc).retryQueue = d.retryQueue ++ [stampRetry pkt rc] := by
  unfold retryOrDrop
  split
  · split
    · right
      rfl
    · left
      rfl
  · left
    rfl

theorem processPacket_retryQueue (d : DistState) (pkt : LogPacket) (rc : ℤ)
    (snapshot : List Analyzer) (r : ℚ) (sendOk : Bool) :
    (processPacket d pkt rc snapshot r sendOk).retryQueue = d.retryQueue ∨
    (processPacket d pkt rc snapshot r sendOk).retryQueue
      = d.retryQueue ++ [stampRetry pkt rc] := by
  unfold processPacket
  split
  · exact retryOrDrop_retryQueue d pkt rc
  · cases hsel : selectAnalyzerRandom snapshot r with
    | none => exact retryOrDrop_retryQueue d pkt rc
    | some sel =>
      cases sendOk with
      | false => simpa using retryOrDrop_retryQueue d pkt rc
      | true =>
        left
        rfl

/-- C10: in every reachable engine state, every packet sitting on the
retry queue was stamped by `processPacket`: its metadata map is non-nil
and holds an integer under `"retryCount"`, so the unchecked type
assertion performed by `retryWorker` cannot panic on any packet it
dequeues. -/
theorem C10_retry_stamped (qs : ℕ) (mr : ℤ) (d : DistState)
    (h : DReachable qs mr d) :
    ∀ pkt ∈ d.retryQueue,
      pkt.metadata ≠ none ∧ ∃ n : ℤ, retryCountOf pkt = some n := by
  induction h with
  | refl =>
    intro pkt hm
    exact absurd hm (List.not_mem_nil pkt)
  | @tail b c hsteps hstep ih =>
    have stamped : ∀ (b : DistState) (pkt' : LogPacket) (rc : ℤ)
        (snapshot : List Analyzer) (rr : ℚ) (sendOk : Bool),
        (∀ pkt ∈ b.retryQueue,
          pkt.metadata ≠ none ∧ ∃ n : ℤ, retryCountOf pkt = some n) →
        ∀ pkt ∈ (processPacket b pkt' rc snapshot rr sendOk).retryQueue,
          pkt.metadata ≠ none ∧ ∃ n : ℤ, retryCountOf pkt = some n := by
      intro b pkt' rc snapshot rr sendOk hb pkt hm
      rcases processPacket_retryQueue b pkt' rc snapshot rr sendOk with hq | hq
      · exact hb pkt (hq ▸ hm)
      · rw [hq] at hm
        rcases List.mem_append.mp hm with hm' | hm'
        · exact hb pkt hm'
        · have : pkt = stampRetry pkt' rc := List.mem_singleton.mp hm'
          subst this
          exact ⟨stampRetry_metadata_ne_none pkt' rc,
            rc + 1, retryCountOf_stampRetry pkt' rc⟩
    cases hstep with
    | enqueue pkt' =>
      intro pkt hm
      apply ih pkt
      unfold EnqueuePacket at hm
      split at hm <;> simpa using hm
    | work pkt' rest snapshot rr sendOk hwq =>
      exact stamped { b with workQueue := rest } pkt' 0 snapshot rr sendOk ih
    | retry pkt' rest n snapshot rr sendOk hrq hn =>
      refine stamped { b with retryQueue := rest } pkt' n snapshot rr sendOk ?_
      intro pkt hm
      exact ih pkt (by rw [hrq]; exact List.mem_cons_of_mem pkt' hm)

/-- Witness for C10 at a concrete reachable state whose retry queue
holds the packet stamped after a failed first processing attempt. -/
theorem C10_retry_stamped_witness :
    (stampRetry pkt0 0).metadata ≠ none :=
  (C10_retry_stamped 1 3
    (processPacket
      { (EnqueuePacket (NewLogDistributor 1 3) pkt0).1 with workQueue := [] }
      pkt0 0 [] 0 false)
    (Relation.ReflTransGen.tail (Relation.ReflTransGen.tail
      Relation.ReflTransGen.refl (DStep.enqueue _ pkt0))
      (DStep.work _ pkt0 [] [] 0 false rfl))
    (stampRetry pkt0 0) (by decide)).1

end WLA
